import Mathlib

/-!
Shallow embedding of the go-oasis/oasis OAuth2 authorization-endpoint core
(src/authorize.go and src/response.go), together with the small slices of the
Go standard library the code relies on (net/url parsing and query encoding,
net/http header manipulation, http.StatusText, strings.Trim, encoding/json
struct marshalling for the tagged fields of AuthorizeRequest).

Conventions of the embedding:
 - Go strings are Lean `String`s; byte-level operations (query escaping) go
   through the UTF-8 bytes exactly as Go does.
 - Go maps with string keys are association lists with pairwise-distinct keys;
   since every observation made by the code either sorts the keys
   (`url.Values.Encode`) or looks a single key up, the list order is
   irrelevant to all observable results, which is proved where needed.
 - The `http.ResponseWriter` is a state record (headers, status, body); a
   method writing to it becomes a function `State → State × Option String`
   where the second component is the returned Go `error` (`none` = nil).
 - `context.Context` values are threaded through the Go code unchanged and
   never inspected by it, so they are elided from the embedding.
-/

namespace Oasis

/-- `strings.Trim(s, "\r\n\t ")` as used by `DecodeAuthorize`: remove all
leading and trailing occurrences of CR, LF, TAB and space. -/
def goTrim (s : String) : String :=
  let cut : Char → Bool := fun c => c = '\r' || c = '\n' || c = '\t' || c = ' '
  String.mk (((s.toList.dropWhile cut).reverse.dropWhile cut).reverse)

/-- Split a character list at every occurrence of `sep`
(Go `strings.Split` on a one-character separator). -/
def splitChar (sep : Char) : List Char → List (List Char)
  | [] => [[]]
  | c :: rest =>
      if c = sep then [] :: splitChar sep rest
      else
        match splitChar sep rest with
        | [] => [[c]]
        | g :: gs => (c :: g) :: gs

/-- Go `strings.Cut`-style split at the first occurrence of `sep`:
returns (before, after) and whether the separator was found. -/
def cutAt (s : String) (sep : Char) : String × String × Bool :=
  match splitChar sep s.toList with
  | [] => (s, "", false)
  | [_] => (s, "", false)
  | before :: rest =>
      (String.mk before,
       String.intercalate (String.mk [sep]) (rest.map String.mk), true)

/-- Uppercase hexadecimal digit, as produced by Go's `"0123456789ABCDEF"`
lookup table in net/url escaping. -/
def upperHexDigit (n : Nat) : Char :=
  ("0123456789ABCDEF".toList.getD n '0')

/-- Lowercase hexadecimal digit (Go `encoding/json` control escapes). -/
def lowerHexDigit (n : Nat) : Char :=
  ("0123456789abcdef".toList.getD n '0')

/-- Byte values Go's `url.QueryEscape` leaves unescaped: ASCII alphanumerics
and `-`, `.`, `_`, `~`. -/
def queryUnescapedByte (n : Nat) : Bool :=
  (65 ≤ n && n ≤ 90) || (97 ≤ n && n ≤ 122) || (48 ≤ n && n ≤ 57) ||
  n = 45 || n = 46 || n = 95 || n = 126

/-- UTF-8 encoding of one character as byte values (Go strings are byte
slices; escaping operates on these bytes). -/
def utf8Bytes (c : Char) : List Nat :=
  let n := c.toNat
  if n < 128 then [n]
  else if n < 2048 then [192 + n / 64, 128 + n % 64]
  else if n < 65536 then [224 + n / 4096, 128 + n / 64 % 64, 128 + n % 64]
  else [240 + n / 262144, 128 + n / 4096 % 64, 128 + n / 64 % 64, 128 + n % 64]

/-- Go `url.QueryEscape`: operates on the UTF-8 bytes, keeps unreserved
bytes, turns space into `+`, percent-encodes everything else in upper hex. -/
def queryEscape (s : String) : String :=
  String.join ((s.toList.flatMap utf8Bytes).map fun n =>
    if n = 32 then "+"
    else if queryUnescapedByte n then String.mk [Char.ofNat n]
    else String.mk ['%', upperHexDigit (n / 16), upperHexDigit (n % 16)])

/-- Hex digit value for percent-decoding (Go `unhex`), written on code
points: digits are 48-57, lowercase hex letters 97-102, uppercase 65-70. -/
def hexVal (c : Char) : Option Nat :=
  let n := c.toNat
  if 48 ≤ n && n ≤ 57 then some (n - 48)
  else if 97 ≤ n && n ≤ 102 then some (n - 87)
  else if 65 ≤ n && n ≤ 70 then some (n - 55)
  else none

/-- Core loop of Go `url.QueryUnescape`: `+` becomes space, `%XX` becomes the
byte `XX`, anything else passes through; a malformed `%` sequence is an error
(`none`).  Decoded bytes are re-read as one character each, which agrees with
Go (whose strings are raw byte slices) on all single-byte data. -/
def queryUnescapeChars : List Char → Option (List Char)
  | [] => some []
  | '+' :: rest => (queryUnescapeChars rest).map (' ' :: ·)
  | '%' :: h1 :: h2 :: rest =>
      match hexVal h1, hexVal h2 with
      | some a, some b => (queryUnescapeChars rest).map (Char.ofNat (a * 16 + b) :: ·)
      | _, _ => none
  | '%' :: _ => none
  | c :: rest => (queryUnescapeChars rest).map (c :: ·)

/-- Go `url.QueryUnescape`. -/
def queryUnescape (s : String) : Option String :=
  (queryUnescapeChars s.toList).map String.mk

/-- `url.Values`: Go's `map[string][]string`, embedded as an association
list with pairwise-distinct keys. -/
abbrev Values : Type := List (String × List String)

instance : DecidableEq Values := inferInstanceAs (DecidableEq (List (String × List String)))
instance : Repr Values := inferInstanceAs (Repr (List (String × List String)))

instance : Membership (String × List String) Values :=
  inferInstanceAs (Membership (String × List String) (List (String × List String)))

/-- Association-list lookup (the Go map read `v[key]`). -/
def lookupKey {α : Type} : List (String × α) → String → Option α
  | [], _ => none
  | (k, v) :: rest, key => if k = key then some v else lookupKey rest key

/-- `url.Values.Add`: append `value` to the slice stored under `key`,
creating the entry when absent. -/
def Values.Add (v : Values) (key value : String) : Values :=
  match v with
  | [] => [(key, [value])]
  | (k, vs) :: rest =>
      if k = key then (k, vs ++ [value]) :: rest
      else (k, vs) :: Values.Add rest key value

/-- `url.Values.Get`: first value of the slice under `key`, `""` when the
key is absent or its slice is empty. -/
def Values.Get (v : Values) (key : String) : String :=
  match lookupKey v key with
  | some (x :: _) => x
  | _ => ""

/-- Lexicographic comparison of character lists.  Go's `sort.Strings`
compares strings byte-wise; on UTF-8 data byte-wise order coincides with
code-point order, which this implements. -/
def charsLeb : List Char → List Char → Bool
  | [], _ => true
  | _ :: _, [] => false
  | a :: as, b :: bs =>
      if a < b then true
      else if b < a then false
      else charsLeb as bs

/-- String order used when `url.Values.Encode` sorts its keys. -/
def keyLe (a b : String) : Prop := charsLeb a.data b.data = true

instance : DecidableRel keyLe := fun a b =>
  inferInstanceAs (Decidable (charsLeb a.data b.data = true))

/-- The key sequence `url.Values.Encode` iterates over: the map's keys,
sorted lexicographically (Go's `sort.Strings`). -/
def Values.sortedKeys (v : Values) : List String :=
  List.insertionSort keyLe (v.map Prod.fst)

/-- `url.Values.Encode`: keys sorted lexicographically, each value escaped,
pairs joined with `&`. -/
def Values.Encode (v : Values) : String :=
  String.intercalate "&"
    ((Values.sortedKeys v).flatMap fun k =>
      ((lookupKey v k).getD []).map fun x => queryEscape k ++ "=" ++ queryEscape x)

/-- One `key=value` piece of a query string, as handled by the loop body of
Go `url.ParseQuery`: pieces containing `;` are rejected, empty pieces are
skipped, the piece is cut at the first `=`, and both halves are unescaped
(a piece whose unescaping fails is skipped). -/
def parseQueryPiece (piece : String) : Option (String × String) :=
  if piece.toList.contains ';' then none
  else if piece = "" then none
  else
    let (k, rest, _) := cutAt piece '='
    match queryUnescape k, queryUnescape rest with
    | some key, some value => some (key, value)
    | _, _ => none

/-- The ordered key/value pairs of a raw query string (`&`-separated). -/
def queryPairs (rawQuery : String) : List (String × String) :=
  ((splitChar '&' rawQuery.toList).map String.mk).filterMap parseQueryPiece

/-- Go `url.ParseQuery` (errors discarded, as all callers here discard them):
fold the ordered pairs into a `url.Values` map with `Add`. -/
def parseQuery (rawQuery : String) : Values :=
  (queryPairs rawQuery).foldl (fun acc kv => Values.Add acc kv.1 kv.2) []

/-- The components of Go's `url.URL` that `RedirectResponse.ResponseTo`
reads or writes.  `Opq` is `URL.Opaque`; escaping of path and fragment is
kept as the identity (the data flowing through this library is already in
escaped/encoded form when these components are serialized). -/
structure URL where
  Scheme : String
  Opq : String
  Host : String
  Path : String
  RawQuery : String
  Fragment : String
deriving DecidableEq, Repr

/-- Go `net/url.getScheme`: the scheme is a leading run of letters, digits,
`+`, `-`, `.` starting with a letter and terminated by `:`; a leading digit
or sign makes the whole input scheme-less; a leading `:` is an error.
Returns `(scheme, rest)`. -/
def getScheme (rawURL : String) : Except String (String × String) :=
  go rawURL.toList 0
where
  go : List Char → Nat → Except String (String × String)
    | [], _ => .ok ("", rawURL)
    | c :: rest, i =>
        if ('a' ≤ c && c ≤ 'z') || ('A' ≤ c && c ≤ 'Z') then go rest (i + 1)
        else if ('0' ≤ c && c ≤ '9') || c = '+' || c = '-' || c = '.' then
          if i = 0 then .ok ("", rawURL) else go rest (i + 1)
        else if c = ':' then
          if i = 0 then .error "missing protocol scheme"
          else .ok (String.mk (rawURL.toList.take i), String.mk rest)
        else .ok ("", rawURL)

/-- The host component of an authority: everything after the last `@`
(Go `parseAuthority`; userinfo is dropped, host validation elided for the
well-formed hosts exercised here). -/
def hostOfAuthority (authority : String) : String :=
  match (splitChar '@' authority.toList).getLast? with
  | none => authority
  | some host => String.mk host

/-- Go `url.Parse`, for the URL shapes this library feeds it: cut the
fragment at the first `#`, extract the scheme (lower-cased), cut the query
at the first `?`, then either take an opaque part (scheme present and no
leading `/`), an authority + path (leading `//`), or a bare path. -/
def url.Parse (rawURL : String) : Except String URL :=
  let (rest0, frag, _) := cutAt rawURL '#'
  match getScheme rest0 with
  | .error e => .error ("parse \"" ++ rawURL ++ "\": " ++ e)
  | .ok (schemeRaw, rest1) =>
      let scheme := String.mk (schemeRaw.toList.map Char.toLower)
      let (rest2, rawQuery, _) := cutAt rest1 '?'
      let restChars := rest2.toList
      if scheme ≠ "" && ¬ (restChars.take 1 = ['/']) then
        .ok ⟨scheme, rest2, "", "", rawQuery, frag⟩
      else if restChars.take 2 = ['/', '/'] then
        let afterSlashes := String.mk (restChars.drop 2)
        let (authority, path, found) := cutAt afterSlashes '/'
        let path' := if found then "/" ++ path else ""
        .ok ⟨scheme, "", hostOfAuthority authority, path', rawQuery, frag⟩
      else
        .ok ⟨scheme, "", "", rest2, rawQuery, frag⟩

/-- Go `url.URL.Query()`. -/
def URL.Query (u : URL) : Values := parseQuery u.RawQuery

/-- Go `url.URL.String()` restricted to the fields this embedding tracks:
`scheme:`, then the opaque part or `//host` + path, then `?query` and
`#fragment` when non-empty. -/
def URL.toString (u : URL) : String :=
  (if u.Scheme ≠ "" then u.Scheme ++ ":" else "") ++
  (if u.Opq ≠ "" then u.Opq
   else (if u.Scheme ≠ "" || u.Host ≠ "" then "//" ++ u.Host else "") ++ u.Path) ++
  (if u.RawQuery ≠ "" then "?" ++ u.RawQuery else "") ++
  (if u.Fragment ≠ "" then "#" ++ u.Fragment else "")

/-- `http.Header`: Go's `map[string][]string` under canonicalized keys,
embedded like `Values`. -/
abbrev Header : Type := List (String × List String)

instance : DecidableEq Header := inferInstanceAs (DecidableEq (List (String × List String)))
instance : Repr Header := inferInstanceAs (Repr (List (String × List String)))

instance : Membership (String × List String) Header :=
  inferInstanceAs (Membership (String × List String) (List (String × List String)))

/-- Whether a byte is a valid MIME header token character
(Go `net/textproto.validHeaderFieldByte`). -/
def validHeaderFieldChar (c : Char) : Bool :=
  ('a' ≤ c && c ≤ 'z') || ('A' ≤ c && c ≤ 'Z') || ('0' ≤ c && c ≤ '9') ||
  c ∈ ['!', '#', '$', '%', '&', Char.ofNat 39, '*', '+', '-', '.', '^', '_', Char.ofNat 96, '|', '~']

/-- Go `textproto.CanonicalMIMEHeaderKey`: if every character is a valid
token character, uppercase the first letter and every letter following a
hyphen and lowercase the rest; otherwise return the key unchanged. -/
def canonicalMIMEHeaderKey (s : String) : String :=
  if s.toList.all validHeaderFieldChar then
    String.mk (go true s.toList)
  else s
where
  go : Bool → List Char → List Char
    | _, [] => []
    | upper, c :: rest =>
        let c' := if upper then c.toUpper else c.toLower
        (c' :: go (c = '-') rest)

/-- `http.Header.Add`: append `value` under the canonicalized key. -/
def Header.Add (h : Header) (key value : String) : Header :=
  addCanonical h (canonicalMIMEHeaderKey key) value
where
  addCanonical : Header → String → String → Header
    | [], k, v => [(k, [v])]
    | (k0, vs) :: rest, k, v =>
        if k0 = k then (k0, vs ++ [v]) :: rest
        else (k0, vs) :: addCanonical rest k v

/-- `http.Header.Set`: replace the slice under the canonicalized key by the
single given value. -/
def Header.Set (h : Header) (key value : String) : Header :=
  setCanonical h (canonicalMIMEHeaderKey key) value
where
  setCanonical : Header → String → String → Header
    | [], k, v => [(k, [v])]
    | (k0, vs) :: rest, k, v =>
        if k0 = k then (k0, [v]) :: rest
        else (k0, vs) :: setCanonical rest k v

/-- `http.Header.Get`: first value under the canonicalized key, `""` when
absent. -/
def Header.Get (h : Header) (key : String) : String :=
  match lookupKey h (canonicalMIMEHeaderKey key) with
  | some (x :: _) => x
  | _ => ""

/-- The observable state of an `http.ResponseWriter`: accumulated headers,
the status code once written, and the body bytes. -/
structure Writer where
  header : Header
  status : Option Nat
  body : String
deriving DecidableEq, Repr

/-- A fresh recorder (`httptest.NewRecorder()`). -/
def Writer.empty : Writer := ⟨[], none, ""⟩

/-- `w.WriteHeader(code)`: commits the status code; a second call is
ignored (standard `http.ResponseWriter` superfluous-WriteHeader behavior). -/
def Writer.WriteHeader (w : Writer) (code : Nat) : Writer :=
  match w.status with
  | some _ => w
  | none => { w with status := some code }

/-- The header-copy loop both responders start with:
`for key, values := range HeaderCache { for i := range values {
w.Header().Add(key, values[i]) } }`. -/
def copyHeader (dst : Header) (cache : Header) : Header :=
  cache.foldl (fun h kv => kv.2.foldl (fun h' v => Header.Add h' kv.1 v) h) dst

/-- `ResponseCache` (src/response.go): a buffered status + headers +
optional body. -/
structure ResponseCache where
  Code : Nat
  HeaderCache : Header
  Body : Option String
deriving DecidableEq, Repr

/-- `ResponseCache.ResponseTo`: copy headers, write the status code, copy
the body when present; never returns an error (the model's body copy
cannot fail). -/
def ResponseCache.ResponseTo (rc : ResponseCache) (w : Writer) : Writer × Option String :=
  let w1 := { w with header := copyHeader w.header rc.HeaderCache }
  let w2 := w1.WriteHeader rc.Code
  let w3 := match rc.Body with
    | some b => { w2 with body := w2.body ++ b }
    | none => w2
  (w3, none)

/-- `RedirectResponse` (src/response.go). -/
structure RedirectResponse where
  HeaderCache : Header
  RedirectURI : String
  Query : Values
  Fragment : Values
deriving DecidableEq, Repr

/-- The query-merge loop of `RedirectResponse.ResponseTo`:
`for key, values := range rr.Query { for i := range values {
query.Add(key, values[i]) } }`, starting from the base URI's parsed query. -/
def mergeQuery (base : Values) (extra : Values) : Values :=
  extra.foldl (fun q kv => kv.2.foldl (fun q' v => Values.Add q' kv.1 v) q) base

/-- The exact error message of the non-absolute-URI failure in
`RedirectResponse.ResponseTo`. -/
def notAbsoluteMsg (original : String) : String :=
  "redirect_uri is misformed. expected a full URI but got \"" ++ original ++ "\""

/-- `RedirectResponse.ResponseTo`: copy headers; fail when the redirect URI
is empty, unparsable, or lacks a scheme or a host; otherwise append the
stored query values to the base URI's query, re-encode it (sorted), encode
the fragment, set `Location` and write status 307. -/
def RedirectResponse.ResponseTo (rr : RedirectResponse) (w : Writer) :
    Writer × Option String :=
  let w1 := { w with header := copyHeader w.header rr.HeaderCache }
  if rr.RedirectURI = "" then
    (w1, some "redirect_uri not set")
  else
    match url.Parse rr.RedirectURI with
    | .error e => (w1, some ("redirect_uri is misformed. " ++ e))
    | .ok u =>
        if u.Scheme = "" || u.Host = "" then
          (w1, some (notAbsoluteMsg rr.RedirectURI))
        else
          let query := mergeQuery u.Query rr.Query
          let u' := { u with RawQuery := query.Encode, Fragment := rr.Fragment.Encode }
          let w2 := { w1 with header := Header.Set w1.header "Location" u'.toString }
          (w2.WriteHeader 307, none)

/-- Go `http.StatusText` for the codes this library can emit (unknown
codes map to `""`, as in Go). -/
def StatusText (code : Nat) : String :=
  match code with
  | 200 => "OK"
  | 307 => "Temporary Redirect"
  | 400 => "Bad Request"
  | 401 => "Unauthorized"
  | 403 => "Forbidden"
  | 404 => "Not Found"
  | 500 => "Internal Server Error"
  | _ => ""

/-- `AuthorizeStage` (src/authorize.go): an integer. -/
abbrev AuthorizeStage : Type := Int

instance : DecidableEq AuthorizeStage := inferInstanceAs (DecidableEq Int)
instance : Repr AuthorizeStage := inferInstanceAs (Repr Int)
instance : ToString AuthorizeStage := inferInstanceAs (ToString Int)
instance : OfNat AuthorizeStage 0 := inferInstanceAs (OfNat Int 0)
instance : OfNat AuthorizeStage 1 := inferInstanceAs (OfNat Int 1)
instance : OfNat AuthorizeStage 2 := inferInstanceAs (OfNat Int 2)
instance : OfNat AuthorizeStage 3 := inferInstanceAs (OfNat Int 3)
instance : OfNat AuthorizeStage 4 := inferInstanceAs (OfNat Int 4)

/-- `StageInitialize`: the zero value every `AuthorizeRequest` starts at. -/
def StageInitialize : AuthorizeStage := 0

/-- `StageToAuthenticate`. -/
def StageToAuthenticate : AuthorizeStage := 1

/-- `StageIntermediate`. -/
def StageIntermediate : AuthorizeStage := 2

/-- `StageToAuthorize`. -/
def StageToAuthorize : AuthorizeStage := 3

/-- `StageCustom`. -/
def StageCustom : AuthorizeStage := 4

/-- The raw `*http.Request` as far as this library reads it: only
`r.URL.Query()` (derived from the raw query string) and the context (which
the embedding elides) are ever consulted. -/
structure HTTPRequest where
  RawQuery : String
deriving DecidableEq, Repr

/-- `AuthorizeRequest` (src/authorize.go), with the Go zero value as
default for every field, as composite literals leave omitted fields at
their zero value. -/
structure AuthorizeRequest where
  HTTPRequest : Option HTTPRequest := none
  ResponseType : String := ""
  ClientID : String := ""
  RedirectURI : String := ""
  Scope : String := ""
  State : String := ""
  Stage : AuthorizeStage := StageInitialize
  UserID : String := ""
deriving DecidableEq, Repr

/-- `DefaultAuthorizeDecoder`: its `map[string]bool` of allowed response
types, embedded as its key list (all stored values are `true`, so the map
is observably its key set). -/
structure DefaultAuthorizeDecoder where
  allowedResponseTypes : List String
deriving DecidableEq, Repr

/-- `NewAuthorizeDecoder(allowedResponseTypes...)`. -/
def NewAuthorizeDecoder (allowedResponseTypes : List String) : DefaultAuthorizeDecoder :=
  ⟨allowedResponseTypes⟩

/-- The exact decode error for a missing response type. -/
def missingResponseTypeMsg : String := "response_type is required but not set"

/-- The exact decode error for a disallowed response type. -/
def notAllowedMsg (responseType : String) : String :=
  "response_type \"" ++ responseType ++ "\" is not allowed"

/-- `DefaultAuthorizeDecoder.DecodeAuthorize` (the inherited context return
is elided): build the request from the trimmed query parameters, then
validate `response_type` — empty first, then membership in the allow-set.
An `AuthorizeRequest` is returned in every case. -/
def DecodeAuthorize (ad : DefaultAuthorizeDecoder) (r : HTTPRequest) :
    AuthorizeRequest × Option String :=
  let q := parseQuery r.RawQuery
  let ar : AuthorizeRequest :=
    { ResponseType := goTrim (q.Get "response_type")
      ClientID := goTrim (q.Get "client_id")
      RedirectURI := goTrim (q.Get "redirect_uri")
      Scope := goTrim (q.Get "scope")
      State := goTrim (q.Get "state") }
  if ar.ResponseType = "" then
    (ar, some missingResponseTypeMsg)
  else if ¬ ad.allowedResponseTypes.contains ar.ResponseType then
    (ar, some (notAllowedMsg ar.ResponseType))
  else
    (ar, none)

/-- `Responder`: the closed set of responder implementations in this
repository. -/
inductive Responder where
  | cache (rc : ResponseCache)
  | redirect (rr : RedirectResponse)
deriving DecidableEq, Repr

/-- `AuthorizeHandler` (context elided): may return a nil `Responder`. -/
abbrev AuthorizeHandler : Type :=
  AuthorizeRequest → Option String → Option Responder

/-- `AuthorizeHandlerMux`: the `map[AuthorizeStage]AuthorizeHandler`
registry, embedded as its lookup function (`none` = key absent). -/
structure AuthorizeHandlerMux where
  handlers : AuthorizeStage → Option AuthorizeHandler

/-- `NewAuthorizeHandlerMux`: the empty registry. -/
def NewAuthorizeHandlerMux : AuthorizeHandlerMux := ⟨fun _ => none⟩

/-- `AuthorizeHandlerMux.Add`: Go map assignment — the new handler
replaces any previous one for the stage. -/
def AuthorizeHandlerMux.Add (mux : AuthorizeHandlerMux) (stage : AuthorizeStage)
    (handler : AuthorizeHandler) : AuthorizeHandlerMux :=
  ⟨fun s => if s = stage then some handler else mux.handlers s⟩

/-- `AuthorizeHandlerMux.AddFunc`: same map assignment, taking the handler
as a plain function (Go's `AuthorizeHandlerFunc` adaptor is the identity in
this embedding, where handlers already are functions). -/
def AuthorizeHandlerMux.AddFunc (mux : AuthorizeHandlerMux) (stage : AuthorizeStage)
    (handler : AuthorizeHandler) : AuthorizeHandlerMux :=
  ⟨fun s => if s = stage then some handler else mux.handlers s⟩

/-- `AuthorizeHandlerMux.HandleAuthorizeRequest`: dispatch on `ar.Stage`;
a registered handler's result is returned unchanged, an unregistered stage
degrades to a cached 500 response carrying the standard status text. -/
def AuthorizeHandlerMux.HandleAuthorizeRequest (mux : AuthorizeHandlerMux)
    (ar : AuthorizeRequest) (decodeErr : Option String) : Option Responder :=
  match mux.handlers ar.Stage with
  | some handler => handler ar decodeErr
  | none => some (.cache ⟨500, [], some (StatusText 500)⟩)

/-- `encoding/json` string escaping as Go's encoder performs it by default:
quote and backslash escaped, newline/CR/TAB as two-character escapes, other
control bytes as `\u00XX`, the HTML-sensitive `<`, `>`, `&` as `\u00XX`,
and U+2028/U+2029 as `\u202X`. -/
def jsonEscapeChar (c : Char) : String :=
  if c = '"' then "\\\""
  else if c = '\\' then "\\\\"
  else if c = '\n' then "\\n"
  else if c = '\r' then "\\r"
  else if c = '\t' then "\\t"
  else if c = '<' then "\\u003c"
  else if c = '>' then "\\u003e"
  else if c = '&' then "\\u0026"
  else if c.toNat < 32 then
    String.mk ['\\', 'u', '0', '0',
      lowerHexDigit (c.toNat / 16), lowerHexDigit (c.toNat % 16)]
  else if c.toNat = 8232 then "\\u2028"
  else if c.toNat = 8233 then "\\u2029"
  else String.mk [c]

/-- A JSON string literal. -/
def jsonQuote (s : String) : String :=
  "\"" ++ String.join (s.toList.map jsonEscapeChar) ++ "\""

/-- The key/value items `json.Marshal` emits for an `AuthorizeRequest`, in
struct-field order, honoring the struct tags: `HTTPRequest` is tagged
`json:"-"` and never emitted; `response_type` and `client_id` are always
present; the remaining fields carry `omitempty` (for the integer `Stage`
the empty value is `0`). -/
def AuthorizeRequest.jsonFields (ar : AuthorizeRequest) : List (String × String) :=
  [("response_type", jsonQuote ar.ResponseType), ("client_id", jsonQuote ar.ClientID)] ++
  (if ar.RedirectURI = "" then [] else [("redirect_uri", jsonQuote ar.RedirectURI)]) ++
  (if ar.Scope = "" then [] else [("scope", jsonQuote ar.Scope)]) ++
  (if ar.State = "" then [] else [("state", jsonQuote ar.State)]) ++
  (if ar.Stage = StageInitialize then [] else [("stage", toString (ar.Stage : Int))]) ++
  (if ar.UserID = "" then [] else [("user_id", jsonQuote ar.UserID)])

/-- `json.Marshal` of an `AuthorizeRequest`. -/
def AuthorizeRequest.marshalJSON (ar : AuthorizeRequest) : String :=
  "\x7b" ++ String.intercalate ","
    (ar.jsonFields.map fun kv => jsonQuote kv.1 ++ ":" ++ kv.2) ++ "\x7d"

/-! ### Lemmas about association-list maps -/

theorem lookupKey_Add (v : Values) (key val x : String) :
    lookupKey (Values.Add v key val) x =
      if x = key then some ((lookupKey v key).getD [] ++ [val])
      else lookupKey v x := by
  induction v with
  | nil =>
      simp only [Values.Add, lookupKey]
      split_ifs <;> simp_all [eq_comm]
  | cons hd tl ih =>
      obtain ⟨k, vs⟩ := hd
      by_cases hk : k = key
      · subst hk
        simp only [Values.Add, if_pos rfl, lookupKey]
        split_ifs <;> first | rfl | simp_all [eq_comm]
      · simp only [Values.Add, if_neg hk, lookupKey, ih]
        split_ifs <;> simp_all [eq_comm]

theorem get_of_lookup_cons (ps : List (String × String)) (acc : Values)
    (k x : String) (vs : List String) (h : lookupKey acc k = some (x :: vs)) :
    Values.Get (ps.foldl (fun a kv => Values.Add a kv.1 kv.2) acc) k = x := by
  induction ps generalizing acc x vs with
  | nil => simp [Values.Get, h]
  | cons p ps ih =>
      simp only [List.foldl_cons]
      by_cases hp : k = p.1
      · refine ih (Values.Add acc p.1 p.2) x (vs ++ [p.2]) ?_
        rw [lookupKey_Add, if_pos hp, ← hp, h]
        rfl
      · refine ih (Values.Add acc p.1 p.2) x vs ?_
        rw [lookupKey_Add, if_neg hp, h]

theorem get_foldl_pairs (ps : List (String × String)) (acc : Values)
    (k : String) (h : lookupKey acc k = none) :
    Values.Get (ps.foldl (fun a kv => Values.Add a kv.1 kv.2) acc) k =
      ((ps.find? (fun kv => kv.1 = k)).map Prod.snd).getD "" := by
  induction ps generalizing acc with
  | nil => simp [Values.Get, h]
  | cons p ps ih =>
      simp only [List.foldl_cons]
      by_cases hp : p.1 = k
      · rw [get_of_lookup_cons ps _ k p.2 []
          (by rw [lookupKey_Add, if_pos hp.symm, hp, h]; rfl)]
        rw [List.find?_cons_of_pos _ (by simp [hp])]
        simp
      · rw [ih (Values.Add acc p.1 p.2)
          (by rw [lookupKey_Add, if_neg (fun hh => hp hh.symm), h])]
        rw [List.find?_cons_of_neg _ (by simp [hp])]

theorem get_parseQuery (raw k : String) :
    Values.Get (parseQuery raw) k =
      (((queryPairs raw).find? (fun kv => kv.1 = k)).map Prod.snd).getD "" :=
  get_foldl_pairs (queryPairs raw) [] k rfl

/-! ### The decoder -/

theorem decodeAuthorize_fst (ad : DefaultAuthorizeDecoder) (r : HTTPRequest) :
    (DecodeAuthorize ad r).1 =
      { ResponseType := goTrim ((parseQuery r.RawQuery).Get "response_type")
        ClientID := goTrim ((parseQuery r.RawQuery).Get "client_id")
        RedirectURI := goTrim ((parseQuery r.RawQuery).Get "redirect_uri")
        Scope := goTrim ((parseQuery r.RawQuery).Get "scope")
        State := goTrim ((parseQuery r.RawQuery).Get "state") } := by
  simp only [DecodeAuthorize]
  split
  · rfl
  · split <;> rfl

/-- C5: `DecodeAuthorize` always returns a populated `AuthorizeRequest`,
error or not: the five query-derived fields hold the corresponding query
parameters trimmed of leading/trailing CR, LF, TAB and space, the stage
stays at the initial stage 0 and the user id is never set.  (The request
is a plain component of the returned pair, hence never nil.) -/
theorem decode_always_populates (ad : DefaultAuthorizeDecoder) (r : HTTPRequest) :
    (DecodeAuthorize ad r).1.ResponseType = goTrim ((parseQuery r.RawQuery).Get "response_type") ∧
    (DecodeAuthorize ad r).1.ClientID = goTrim ((parseQuery r.RawQuery).Get "client_id") ∧
    (DecodeAuthorize ad r).1.RedirectURI = goTrim ((parseQuery r.RawQuery).Get "redirect_uri") ∧
    (DecodeAuthorize ad r).1.Scope = goTrim ((parseQuery r.RawQuery).Get "scope") ∧
    (DecodeAuthorize ad r).1.State = goTrim ((parseQuery r.RawQuery).Get "state") ∧
    (DecodeAuthorize ad r).1.Stage = StageInitialize ∧
    (DecodeAuthorize ad r).1.UserID = "" := by
  rw [decodeAuthorize_fst]
  exact ⟨rfl, rfl, rfl, rfl, rfl, rfl, rfl⟩

theorem decodeAuthorize_snd (ad : DefaultAuthorizeDecoder) (r : HTTPRequest) :
    (DecodeAuthorize ad r).2 =
      (if goTrim ((parseQuery r.RawQuery).Get "response_type") = "" then
        some missingResponseTypeMsg
       else if ¬ ad.allowedResponseTypes.contains
            (goTrim ((parseQuery r.RawQuery).Get "response_type")) then
        some (notAllowedMsg (goTrim ((parseQuery r.RawQuery).Get "response_type")))
       else none) := by
  simp only [DecodeAuthorize]
  split
  · rfl
  · split <;> rfl

/-- C2: `DecodeAuthorize` errors exactly when the trimmed `response_type`
is empty or outside the allow-set; emptiness is checked first with its
exact message, a disallowed value is reported quoted verbatim, an empty
allow-set errors on every request, and an allowed (hence non-empty)
value gives a nil error. -/
theorem decode_error_iff (ad : DefaultAuthorizeDecoder) (r : HTTPRequest) :
    ((DecodeAuthorize ad r).2 ≠ none ↔
      ((DecodeAuthorize ad r).1.ResponseType = "" ∨
        ¬ ad.allowedResponseTypes.contains (DecodeAuthorize ad r).1.ResponseType)) ∧
    ((DecodeAuthorize ad r).1.ResponseType = "" →
      (DecodeAuthorize ad r).2 = some missingResponseTypeMsg) ∧
    ((DecodeAuthorize ad r).1.ResponseType ≠ "" →
      ¬ ad.allowedResponseTypes.contains (DecodeAuthorize ad r).1.ResponseType →
      (DecodeAuthorize ad r).2 = some (notAllowedMsg (DecodeAuthorize ad r).1.ResponseType)) ∧
    ((DecodeAuthorize ad r).1.ResponseType ≠ "" →
      ad.allowedResponseTypes.contains (DecodeAuthorize ad r).1.ResponseType →
      (DecodeAuthorize ad r).2 = none) ∧
    (ad.allowedResponseTypes = [] → (DecodeAuthorize ad r).2 ≠ none) := by
  have h1 : (DecodeAuthorize ad r).1.ResponseType =
      goTrim ((parseQuery r.RawQuery).Get "response_type") := by
    rw [decodeAuthorize_fst]
  rw [decodeAuthorize_snd, h1]
  by_cases he : goTrim ((parseQuery r.RawQuery).Get "response_type") = ""
  · rw [if_pos he]
    exact ⟨⟨fun _ => Or.inl he, fun _ => by simp⟩, fun _ => rfl,
      fun hne _ => absurd he hne, fun hne _ => absurd he hne, fun _ => by simp⟩
  · rw [if_neg he]
    by_cases hc : ad.allowedResponseTypes.contains
        (goTrim ((parseQuery r.RawQuery).Get "response_type"))
    · rw [if_neg (fun hn => hn hc)]
      refine ⟨⟨fun h => absurd rfl h, fun h => ?_⟩, fun h0 => absurd h0 he,
        fun _ hn => absurd hc hn, fun _ _ => rfl, fun h0 => ?_⟩
      · rcases h with h | h
        · exact absurd h he
        · exact absurd hc h
      · rw [h0] at hc
        simp at hc
    · rw [if_pos hc]
      exact ⟨⟨fun _ => Or.inr hc, fun _ => by simp⟩, fun h0 => absurd h0 he,
        fun _ _ => rfl, fun _ hcc => absurd hcc hc, fun _ => by simp⟩

/-- Witness for C2 at the spec's own vectors: decoder allowing only
`code` accepts `response_type=code`, rejects `response_type=token` with
the exact quoted message, and the empty-allow-set decoder rejects an empty
query with the exact missing-response-type message. -/
theorem decode_error_iff_witness :
    (DecodeAuthorize (NewAuthorizeDecoder ["code"]) ⟨"response_type=code&client_id=dummy-client"⟩).2 = none ∧
    (DecodeAuthorize (NewAuthorizeDecoder ["code"]) ⟨"response_type=token&client_id=dummy-client"⟩).2 =
      some "response_type \"token\" is not allowed" ∧
    (DecodeAuthorize (NewAuthorizeDecoder []) ⟨""⟩).2 =
      some "response_type is required but not set" := by
  refine ⟨?_, ?_, ?_⟩
  · exact (decode_error_iff (NewAuthorizeDecoder ["code"])
      ⟨"response_type=code&client_id=dummy-client"⟩).2.2.2.1 (by decide) (by decide)
  · exact (decode_error_iff (NewAuthorizeDecoder ["code"])
      ⟨"response_type=token&client_id=dummy-client"⟩).2.2.1 (by decide) (by decide)
  · exact (decode_error_iff (NewAuthorizeDecoder []) ⟨""⟩).2.1 (by decide)

/-- C10: every query-derived field of the decoded request comes from the
first occurrence of its parameter among the parsed `&`-separated pieces of
the query string; later occurrences are ignored.  The closing conjunct
shows it on a concrete doubled query. -/
theorem decode_first_occurrence (ad : DefaultAuthorizeDecoder) (r : HTTPRequest) :
    (DecodeAuthorize ad r).1.ResponseType =
      goTrim ((((queryPairs r.RawQuery).find? (fun kv => kv.1 = "response_type")).map Prod.snd).getD "") ∧
    (DecodeAuthorize ad r).1.ClientID =
      goTrim ((((queryPairs r.RawQuery).find? (fun kv => kv.1 = "client_id")).map Prod.snd).getD "") ∧
    (DecodeAuthorize ad r).1.RedirectURI =
      goTrim ((((queryPairs r.RawQuery).find? (fun kv => kv.1 = "redirect_uri")).map Prod.snd).getD "") ∧
    (DecodeAuthorize ad r).1.Scope =
      goTrim ((((queryPairs r.RawQuery).find? (fun kv => kv.1 = "scope")).map Prod.snd).getD "") ∧
    (DecodeAuthorize ad r).1.State =
      goTrim ((((queryPairs r.RawQuery).find? (fun kv => kv.1 = "state")).map Prod.snd).getD "") ∧
    (DecodeAuthorize (NewAuthorizeDecoder ["code"])
      ⟨"client_id=first&client_id=second&response_type=code&response_type=token"⟩).1.ClientID = "first" ∧
    (DecodeAuthorize (NewAuthorizeDecoder ["code"])
      ⟨"client_id=first&client_id=second&response_type=code&response_type=token"⟩).1.ResponseType = "code" := by
  rw [decodeAuthorize_fst]
  refine ⟨?_, ?_, ?_, ?_, ?_, by decide, by decide⟩ <;>
    simp only [get_parseQuery]

/-! ### The stage dispatcher -/

/-- C3: dispatching a request whose stage has no registered handler yields
a cached 500 response whose body is the standard status text (which for
500 reads `Internal Server Error`); dispatching a registered stage returns
that handler's responder unchanged, nil included. -/
theorem mux_dispatch (mux : AuthorizeHandlerMux) (ar : AuthorizeRequest)
    (decodeErr : Option String) :
    (mux.handlers ar.Stage = none →
      mux.HandleAuthorizeRequest ar decodeErr =
        some (.cache ⟨500, [], some (StatusText 500)⟩)) ∧
    StatusText 500 = "Internal Server Error" ∧
    (∀ handler, mux.handlers ar.Stage = some handler →
      mux.HandleAuthorizeRequest ar decodeErr = handler ar decodeErr) := by
  refine ⟨fun hnone => ?_, rfl, fun handler hsome => ?_⟩
  · unfold AuthorizeHandlerMux.HandleAuthorizeRequest
    rw [hnone]
  · unfold AuthorizeHandlerMux.HandleAuthorizeRequest
    rw [hsome]

/-- Witness for C3: the empty mux falls back to the cached 500 response,
and a mux with a handler on stage 0 returns that handler's responder
unchanged (here: nil). -/
theorem mux_dispatch_witness :
    NewAuthorizeHandlerMux.HandleAuthorizeRequest {} none =
      some (.cache ⟨500, [], some "Internal Server Error"⟩) ∧
    (NewAuthorizeHandlerMux.Add 0 (fun _ _ => none)).HandleAuthorizeRequest {} none = none := by
  constructor
  · exact (mux_dispatch NewAuthorizeHandlerMux {} none).1 rfl
  · exact (mux_dispatch (NewAuthorizeHandlerMux.Add 0 (fun _ _ => none)) {} none).2.2
      (fun _ _ => none)
      (by simp [NewAuthorizeHandlerMux, AuthorizeHandlerMux.Add, StageInitialize])

/-- C6: registering a second handler for a stage (by `Add` or `AddFunc`,
in any combination) silently replaces the first, so dispatch of a request
in that stage invokes only the second handler. -/
theorem mux_add_overwrites (mux : AuthorizeHandlerMux) (stage : AuthorizeStage)
    (h1 h2 : AuthorizeHandler) (ar : AuthorizeRequest) (decodeErr : Option String)
    (hstage : ar.Stage = stage) :
    ((mux.Add stage h1).Add stage h2).HandleAuthorizeRequest ar decodeErr = h2 ar decodeErr ∧
    ((mux.Add stage h1).AddFunc stage h2).HandleAuthorizeRequest ar decodeErr = h2 ar decodeErr ∧
    ((mux.AddFunc stage h1).Add stage h2).HandleAuthorizeRequest ar decodeErr = h2 ar decodeErr ∧
    ((mux.AddFunc stage h1).AddFunc stage h2).HandleAuthorizeRequest ar decodeErr = h2 ar decodeErr := by
  subst hstage
  refine ⟨?_, ?_, ?_, ?_⟩ <;>
    simp [AuthorizeHandlerMux.HandleAuthorizeRequest, AuthorizeHandlerMux.Add,
      AuthorizeHandlerMux.AddFunc]

/-- Witness for C6: after registering a 404-responder and then a
200-responder on stage 1, dispatch returns only the second one. -/
theorem mux_add_overwrites_witness :
    ((NewAuthorizeHandlerMux.Add 1 (fun _ _ => some (.cache ⟨404, [], none⟩))).Add 1
        (fun _ _ => some (.cache ⟨200, [], some "second"⟩))).HandleAuthorizeRequest
      { Stage := 1 } none = some (.cache ⟨200, [], some "second"⟩) :=
  (mux_add_overwrites NewAuthorizeHandlerMux 1
    (fun _ _ => some (.cache ⟨404, [], none⟩))
    (fun _ _ => some (.cache ⟨200, [], some "second"⟩))
    { Stage := 1 } none rfl).1

/-! ### JSON serialization of AuthorizeRequest -/

/-- C8: the empty request marshals to exactly
`{"response_type":"","client_id":""}`; each optional field's key appears
exactly when the field is non-empty (`stage` when it differs from the
initial stage 0); `response_type` and `client_id` are always present;
and the raw-request back-reference never influences the output. -/
theorem marshal_omitempty (ar : AuthorizeRequest) :
    AuthorizeRequest.marshalJSON {} = "\x7b\"response_type\":\"\",\"client_id\":\"\"\x7d" ∧
    "response_type" ∈ ar.jsonFields.map Prod.fst ∧
    "client_id" ∈ ar.jsonFields.map Prod.fst ∧
    ("redirect_uri" ∈ ar.jsonFields.map Prod.fst ↔ ar.RedirectURI ≠ "") ∧
    ("scope" ∈ ar.jsonFields.map Prod.fst ↔ ar.Scope ≠ "") ∧
    ("state" ∈ ar.jsonFields.map Prod.fst ↔ ar.State ≠ "") ∧
    ("stage" ∈ ar.jsonFields.map Prod.fst ↔ ar.Stage ≠ StageInitialize) ∧
    ("user_id" ∈ ar.jsonFields.map Prod.fst ↔ ar.UserID ≠ "") ∧
    (∀ req, AuthorizeRequest.marshalJSON { ar with HTTPRequest := req } =
      AuthorizeRequest.marshalJSON ar) := by
  refine ⟨by decide, ?_, ?_, ?_, ?_, ?_, ?_, ?_, fun req => rfl⟩ <;>
    simp [AuthorizeRequest.jsonFields]

/-! ### RedirectResponse failure behavior -/

theorem responseTo_failure_writer (rr : RedirectResponse) (w : Writer)
    (hf : ((rr.ResponseTo w).2).isSome) :
    (rr.ResponseTo w).1 = { w with header := copyHeader w.header rr.HeaderCache } := by
  revert hf
  simp only [RedirectResponse.ResponseTo]
  split
  · intro _
    rfl
  · split
    · intro _
      rfl
    · split
      · intro _
        rfl
      · intro h
        simp at h

/-- C7: whenever `RedirectResponse.ResponseTo` fails (empty, unparsable or
non-absolute redirect URI), the writer's status and body are untouched and
its headers were extended exactly by the header-cache copy — in
particular no `Location` header and no status code were written; the
error is the function's return value. -/
theorem redirect_failure_no_write (rr : RedirectResponse) (w : Writer)
    (hf : ((rr.ResponseTo w).2).isSome) :
    (rr.ResponseTo w).1.status = w.status ∧
    (rr.ResponseTo w).1.body = w.body ∧
    (rr.ResponseTo w).1 = { w with header := copyHeader w.header rr.HeaderCache } ∧
    (rr.ResponseTo w).2 ≠ none := by
  have h := responseTo_failure_writer rr w hf
  refine ⟨by rw [h], by rw [h], h, ?_⟩
  intro hnone
  rw [hnone] at hf
  simp at hf

/-- Witness for C7: an empty redirect URI on a fresh recorder leaves
status and body untouched, and returns the error. -/
theorem redirect_failure_no_write_witness :
    ((RedirectResponse.ResponseTo
        ⟨[("X-Hello-World", ["silly hello"])], "", [], []⟩ Writer.empty).1.status = none ∧
     (RedirectResponse.ResponseTo
        ⟨[("X-Hello-World", ["silly hello"])], "", [], []⟩ Writer.empty).2 ≠ none) :=
  ⟨(redirect_failure_no_write ⟨[("X-Hello-World", ["silly hello"])], "", [], []⟩
      Writer.empty (by decide)).1,
   (redirect_failure_no_write ⟨[("X-Hello-World", ["silly hello"])], "", [], []⟩
      Writer.empty (by decide)).2.2.2⟩

/-! ### C1: the non-absolute-URI check -/

/-- Counterexample to C1 as stated: `mailto:me` parses successfully with a
non-empty scheme (and empty host), so by the claim the
`RedirectURINotAbsolute` failure must not occur — but `ResponseTo` does
fail with exactly that message, because the code requires a scheme AND a
host, not one of the two. -/
theorem redirect_not_absolute_counterexample :
    url.Parse "mailto:me" = .ok ⟨"mailto", "me", "", "", "", ""⟩ ∧
    ¬ ((RedirectResponse.ResponseTo ⟨[], "mailto:me", [], []⟩ Writer.empty).2 =
        some (notAbsoluteMsg "mailto:me") ↔
       ("mailto" = "" ∧ "" = "")) :=
  ⟨rfl, by decide⟩

/-- C1 amended: for a non-empty redirect URI that parses successfully,
`ResponseTo` fails with exactly the `RedirectURINotAbsolute` message (the
unparsed original quoted inside it) if and only if the parsed URI lacks a
scheme OR lacks a host; only a URI with both is accepted. -/
theorem redirect_not_absolute_iff (rr : RedirectResponse) (w : Writer) (u : URL)
    (hne : rr.RedirectURI ≠ "") (hp : url.Parse rr.RedirectURI = .ok u) :
    ((rr.ResponseTo w).2 = some (notAbsoluteMsg rr.RedirectURI) ↔
      (u.Scheme = "" ∨ u.Host = "")) := by
  simp only [RedirectResponse.ResponseTo, if_neg hne, hp]
  split
  · next hcond =>
      exact iff_of_true rfl (by simpa using hcond)
  · next hcond =>
      exact iff_of_false (by simp)
        (fun hor => hcond (by rcases hor with h | h <;> simp [h]))

/-- Witness for the amended C1, at the spec's own test vector: the relative
path `/relative/path` parses with neither scheme nor host and fails with
exactly the required message. -/
theorem redirect_not_absolute_iff_witness :
    (RedirectResponse.ResponseTo ⟨[], "/relative/path", [], []⟩ Writer.empty).2 =
      some (notAbsoluteMsg "/relative/path") :=
  (redirect_not_absolute_iff ⟨[], "/relative/path", [], []⟩ Writer.empty
      ⟨"", "", "", "/relative/path", "", ""⟩ (by decide) rfl).2 (Or.inl rfl)

/-! ### C9: headers are copied before redirect-URI validation -/

theorem lookupKey_addCanonical (h : Header) (k v x : String) :
    lookupKey (Header.Add.addCanonical h k v) x =
      if x = k then some ((lookupKey h k).getD [] ++ [v])
      else lookupKey h x := by
  induction h with
  | nil =>
      simp only [Header.Add.addCanonical, lookupKey]
      split_ifs <;> simp_all [eq_comm]
  | cons hd tl ih =>
      obtain ⟨k0, vs⟩ := hd
      by_cases hk : k0 = k
      · subst hk
        simp only [Header.Add.addCanonical, if_pos rfl, lookupKey]
        split_ifs <;> first | rfl | simp_all [eq_comm]
      · simp only [Header.Add.addCanonical, if_neg hk, lookupKey, ih]
        split_ifs <;> simp_all [eq_comm]

theorem lookupKey_headerAdd (h : Header) (key v x : String) :
    lookupKey (Header.Add h key v) x =
      if x = canonicalMIMEHeaderKey key then
        some ((lookupKey h (canonicalMIMEHeaderKey key)).getD [] ++ [v])
      else lookupKey h x :=
  lookupKey_addCanonical h (canonicalMIMEHeaderKey key) v x

theorem mem_headerAdd_preserve {v : String} (h : Header) (k' v' x : String)
    (hm : v ∈ (lookupKey h x).getD []) :
    v ∈ (lookupKey (Header.Add h k' v') x).getD [] := by
  rw [lookupKey_headerAdd]
  split
  · next heq =>
      rw [← heq]
      exact List.mem_append_left _ hm
  · exact hm

theorem mem_foldValues_preserve (vs : List String) (h : Header) (k x v : String)
    (hm : v ∈ (lookupKey h x).getD []) :
    v ∈ (lookupKey (vs.foldl (fun h' val => Header.Add h' k val) h) x).getD [] := by
  induction vs generalizing h with
  | nil => exact hm
  | cons a as ih => exact ih _ (mem_headerAdd_preserve _ _ _ _ hm)

theorem mem_foldValues (vs : List String) (h : Header) (k v : String) (hv : v ∈ vs) :
    v ∈ (lookupKey (vs.foldl (fun h' val => Header.Add h' k val) h) (canonicalMIMEHeaderKey k)).getD [] := by
  induction vs generalizing h with
  | nil => cases hv
  | cons a as ih =>
      rcases List.mem_cons.1 hv with rfl | hmem
      · refine mem_foldValues_preserve as _ k _ v ?_
        rw [lookupKey_headerAdd, if_pos rfl]
        exact List.mem_append_right _ (List.mem_singleton_self v)
      · exact ih _ hmem

theorem mem_copyHeader_preserve (cache : Header) (dst : Header) (x v : String)
    (hm : v ∈ (lookupKey dst x).getD []) :
    v ∈ (lookupKey (copyHeader dst cache) x).getD [] := by
  induction cache generalizing dst with
  | nil => exact hm
  | cons e rest ih =>
      unfold copyHeader
      rw [List.foldl_cons]
      exact ih _ (mem_foldValues_preserve e.2 dst e.1 x v hm)

theorem mem_copyHeader (cache dst : Header) (kv : String × List String)
    (hkv : kv ∈ cache) (v : String) (hv : v ∈ kv.2) :
    v ∈ (lookupKey (copyHeader dst cache) (canonicalMIMEHeaderKey kv.1)).getD [] := by
  induction cache generalizing dst with
  | nil => cases hkv
  | cons e rest ih =>
      unfold copyHeader
      rw [List.foldl_cons]
      rcases List.mem_cons.1 hkv with rfl | hmem
      · exact mem_copyHeader_preserve rest _ _ _ (mem_foldValues kv.2 dst kv.1 v hv)
      · exact ih _ hmem

/-- C9: when `RedirectResponse.ResponseTo` fails on its redirect URI
(missing, malformed or non-absolute), every key/value pair of the stored
header cache has nevertheless been added to the writer's headers, because
the header-copy loop runs before any validation of the redirect URI. -/
theorem redirect_failure_headers_added (rr : RedirectResponse) (w : Writer)
    (hf : ((rr.ResponseTo w).2).isSome)
    (kv : String × List String) (hkv : kv ∈ rr.HeaderCache)
    (v : String) (hv : v ∈ kv.2) :
    v ∈ (lookupKey ((rr.ResponseTo w).1.header) (canonicalMIMEHeaderKey kv.1)).getD [] := by
  rw [responseTo_failure_writer rr w hf]
  exact mem_copyHeader rr.HeaderCache w.header kv hkv v hv

/-- Witness for C9: the cached `X-Hello-World` header of a redirect
response with a relative (hence rejected) redirect URI is present on the
writer although `ResponseTo` returned the error. -/
theorem redirect_failure_headers_added_witness :
    "silly hello" ∈
      (lookupKey
        ((RedirectResponse.ResponseTo
          ⟨[("X-Hello-World", ["silly hello"])], "/relative/path", [], []⟩
          Writer.empty).1.header)
        (canonicalMIMEHeaderKey "X-Hello-World")).getD [] :=
  redirect_failure_headers_added
    ⟨[("X-Hello-World", ["silly hello"])], "/relative/path", [], []⟩
    Writer.empty (by decide)
    ("X-Hello-World", ["silly hello"]) (by exact List.mem_singleton_self _)
    "silly hello" (by exact List.mem_singleton_self _)

/-! ### C4: the sort order used by Values.Encode -/

theorem charsLeb_total (as bs : List Char) :
    charsLeb as bs = true ∨ charsLeb bs as = true := by
  induction as generalizing bs with
  | nil => exact Or.inl rfl
  | cons a as ih =>
      cases bs with
      | nil => exact Or.inr rfl
      | cons b bs =>
          rcases lt_trichotomy a b with h | h | h
          · exact Or.inl (by simp [charsLeb, h])
          · subst h
            rcases ih bs with h2 | h2
            · exact Or.inl (by simp [charsLeb, lt_irrefl, h2])
            · exact Or.inr (by simp [charsLeb, lt_irrefl, h2])
          · exact Or.inr (by simp [charsLeb, h])

theorem charsLeb_trans {as bs cs : List Char} (h1 : charsLeb as bs = true)
    (h2 : charsLeb bs cs = true) : charsLeb as cs = true := by
  induction as generalizing bs cs with
  | nil => rfl
  | cons a as ih =>
      cases bs with
      | nil => simp [charsLeb] at h1
      | cons b bs =>
          cases cs with
          | nil => simp [charsLeb] at h2
          | cons c cs =>
              rcases lt_trichotomy a b with hab | hab | hab
              · rcases lt_trichotomy b c with hbc | hbc | hbc
                · simp [charsLeb, lt_trans hab hbc]
                · subst hbc
                  simp [charsLeb, hab]
                · simp [charsLeb, not_lt_of_gt hbc, hbc] at h2
              · subst hab
                rcases lt_trichotomy a c with hac | hac | hac
                · simp [charsLeb, hac]
                · subst hac
                  simp only [charsLeb, lt_irrefl, if_false] at h1 h2 ⊢
                  exact ih h1 h2
                · simp [charsLeb, not_lt_of_gt hac, hac] at h2
              · simp [charsLeb, not_lt_of_gt hab, hab] at h1

theorem charsLeb_antisymm {as bs : List Char} (h1 : charsLeb as bs = true)
    (h2 : charsLeb bs as = true) : as = bs := by
  induction as generalizing bs with
  | nil =>
      cases bs with
      | nil => rfl
      | cons b bs => simp [charsLeb] at h2
  | cons a as ih =>
      cases bs with
      | nil => simp [charsLeb] at h1
      | cons b bs =>
          rcases lt_trichotomy a b with hab | hab | hab
          · simp [charsLeb, not_lt_of_gt hab, hab] at h2
          · subst hab
            simp only [charsLeb, lt_irrefl, if_false] at h1 h2
            rw [ih h1 h2]
          · simp [charsLeb, not_lt_of_gt hab, hab] at h1

instance : IsTotal String keyLe := ⟨fun a b => charsLeb_total a.data b.data⟩

instance : IsTrans String keyLe := ⟨fun _ _ _ => charsLeb_trans⟩

instance : IsAntisymm String keyLe :=
  ⟨fun a b h1 h2 => by
    cases a
    cases b
    exact congrArg String.mk (charsLeb_antisymm h1 h2)⟩

theorem sortedKeys_sorted (v : Values) : List.Sorted keyLe v.sortedKeys :=
  List.sorted_insertionSort keyLe (v.map Prod.fst)

/-! ### C4: structure of the merged query map -/

theorem keys_Add (v : Values) (key val : String) :
    (Values.Add v key val).map Prod.fst =
      if (lookupKey v key).isSome then v.map Prod.fst
      else v.map Prod.fst ++ [key] := by
  induction v with
  | nil => simp [Values.Add, lookupKey]
  | cons hd tl ih =>
      obtain ⟨k, vs⟩ := hd
      by_cases hk : k = key
      · subst hk
        simp [Values.Add, lookupKey]
      · simp only [Values.Add, if_neg hk, lookupKey, List.map_cons, ih]
        split_ifs <;> simp_all

theorem lookup_foldAdd_ne (vs : List String) (base : Values) (k x : String)
    (hx : x ≠ k) :
    lookupKey (vs.foldl (fun a v => Values.Add a k v) base) x = lookupKey base x := by
  induction vs generalizing base with
  | nil => rfl
  | cons a as ih => rw [List.foldl_cons, ih, lookupKey_Add, if_neg hx]

theorem lookup_foldAdd_eq (vs : List String) (base : Values) (k : String)
    (hne : vs ≠ []) :
    lookupKey (vs.foldl (fun a v => Values.Add a k v) base) k =
      some ((lookupKey base k).getD [] ++ vs) := by
  induction vs generalizing base with
  | nil => cases hne rfl
  | cons a as ih =>
      rw [List.foldl_cons]
      by_cases has : as = []
      · subst has
        simp [lookupKey_Add]
      · rw [ih (Values.Add base k a) has, lookupKey_Add, if_pos rfl]
        simp

theorem keys_foldAdd (vs : List String) (base : Values) (k : String) (hne : vs ≠ []) :
    (vs.foldl (fun a v => Values.Add a k v) base).map Prod.fst =
      if (lookupKey base k).isSome then base.map Prod.fst
      else base.map Prod.fst ++ [k] := by
  induction vs generalizing base with
  | nil => cases hne rfl
  | cons a as ih =>
      rw [List.foldl_cons]
      by_cases has : as = []
      · subst has
        simp only [List.foldl_nil]
        exact keys_Add base k a
      · rw [ih (Values.Add base k a) has, lookupKey_Add, if_pos rfl]
        simp only [Option.isSome_some, if_true, keys_Add]

theorem lookupKey_none_iff {α : Type} (v : List (String × α)) (x : String) :
    lookupKey v x = none ↔ x ∉ v.map Prod.fst := by
  induction v with
  | nil => simp [lookupKey]
  | cons hd tl ih =>
      obtain ⟨k, vs⟩ := hd
      by_cases hk : k = x
      · subst hk
        simp [lookupKey]
      · simp [lookupKey, hk, ih, Ne.symm hk]

theorem mergeQuery_cons (base : Values) (e : String × List String) (q : Values) :
    mergeQuery base (e :: q) =
      mergeQuery (e.2.foldl (fun a v => Values.Add a e.1 v) base) q := by
  unfold mergeQuery
  rw [List.foldl_cons]

theorem lookup_mergeQuery (q : Values) (base : Values) (x : String)
    (hnd : (q.map Prod.fst).Nodup) :
    (lookupKey (mergeQuery base q) x).getD [] =
      (lookupKey base x).getD [] ++ (lookupKey q x).getD [] := by
  induction q generalizing base with
  | nil => simp [mergeQuery, lookupKey]
  | cons e q' ih =>
      obtain ⟨k, vs⟩ := e
      rw [mergeQuery_cons]
      dsimp only
      have hnd' : (q'.map Prod.fst).Nodup := (List.nodup_cons.1 hnd).2
      have hk_not : k ∉ q'.map Prod.fst := (List.nodup_cons.1 hnd).1
      rw [ih _ hnd']
      by_cases hx : x = k
      · subst hx
        have hq' : lookupKey q' x = none := (lookupKey_none_iff q' x).2 hk_not
        rw [hq']
        by_cases hvs : vs = []
        · subst hvs
          simp [lookupKey]
        · rw [lookup_foldAdd_eq vs base x hvs]
          simp [lookupKey]
      · rw [lookup_foldAdd_ne vs base k x hx]
        have hcons : lookupKey ((k, vs) :: q') x = lookupKey q' x := by
          simp only [lookupKey, if_neg (fun h : k = x => hx h.symm)]
        rw [hcons]

theorem keys_mergeQuery (q base : Values) (hnd : (q.map Prod.fst).Nodup)
    (hne : ∀ kv ∈ q, kv.2 ≠ []) :
    (mergeQuery base q).map Prod.fst =
      base.map Prod.fst ++
        (q.map Prod.fst).filter (fun x => (lookupKey base x).isNone) := by
  induction q generalizing base with
  | nil => simp [mergeQuery]
  | cons e q' ih =>
      obtain ⟨k, vs⟩ := e
      rw [mergeQuery_cons]
      dsimp only
      have hnd' : (q'.map Prod.fst).Nodup := (List.nodup_cons.1 hnd).2
      have hk_not : k ∉ q'.map Prod.fst := (List.nodup_cons.1 hnd).1
      have hvs : vs ≠ [] := hne (k, vs) (List.mem_cons_self _ _)
      have hne' : ∀ kv ∈ q', kv.2 ≠ [] := fun kv hm => hne kv (List.mem_cons_of_mem _ hm)
      rw [ih _ hnd' hne', keys_foldAdd vs base k hvs]
      have hfilt : (q'.map Prod.fst).filter
            (fun x => (lookupKey (vs.foldl (fun a v => Values.Add a k v) base) x).isNone) =
          (q'.map Prod.fst).filter (fun x => (lookupKey base x).isNone) := by
        refine List.filter_congr ?_
        intro x hx
        rw [lookup_foldAdd_ne vs base k x (fun h => hk_not (h ▸ hx))]
      rw [hfilt]
      cases hlk : lookupKey base k with
      | some vs0 =>
          rw [if_pos (by rfl)]
          simp [List.filter_cons, hlk]
      | none =>
          rw [if_neg (by simp)]
          simp [List.filter_cons, hlk]

theorem lookup_perm_of_nodup {q1 q2 : Values} (hp : q1.Perm q2) :
    (q1.map Prod.fst).Nodup → ∀ x, lookupKey q1 x = lookupKey q2 x := by
  induction hp with
  | nil => exact fun _ _ => rfl
  | cons e hp ih =>
      intro hnd x
      obtain ⟨k, vs⟩ := e
      by_cases hk : k = x
      · simp [lookupKey, hk]
      · simp only [lookupKey, if_neg hk]
        exact ih (List.nodup_cons.1 (by simpa using hnd)).2 x
  | swap a b l =>
      intro hnd x
      obtain ⟨ka, va⟩ := a
      obtain ⟨kb, vb⟩ := b
      have hab : kb ≠ ka := by
        have h := hnd
        simp only [List.map_cons, List.nodup_cons, List.mem_cons, not_or] at h
        exact h.1.1
      by_cases hka : ka = x
      · have : ¬ kb = x := fun h => hab (h.trans hka.symm)
        simp [lookupKey, hka, this]
      · by_cases hkb : kb = x
        · simp [lookupKey, hka, hkb]
        · simp [lookupKey, hka, hkb]
  | trans hp1 hp2 ih1 ih2 =>
      intro hnd x
      rw [ih1 hnd x, ih2 (((hp1.map Prod.fst).nodup_iff).1 hnd) x]

theorem encode_mergeQuery_perm (base : Values) {q1 q2 : Values} (hp : q1.Perm q2)
    (hnd : (q1.map Prod.fst).Nodup) (hne : ∀ kv ∈ q1, kv.2 ≠ []) :
    (mergeQuery base q1).Encode = (mergeQuery base q2).Encode := by
  have hnd2 : (q2.map Prod.fst).Nodup := ((hp.map Prod.fst).nodup_iff).1 hnd
  have hne2 : ∀ kv ∈ q2, kv.2 ≠ [] := fun kv hm => hne kv (hp.symm.subset hm)
  have hkeys : (mergeQuery base q1).sortedKeys = (mergeQuery base q2).sortedKeys := by
    unfold Values.sortedKeys
    refine List.eq_of_perm_of_sorted ?_
      (List.sorted_insertionSort keyLe _) (List.sorted_insertionSort keyLe _)
    refine ((List.perm_insertionSort keyLe _).trans ?_).trans
      (List.perm_insertionSort keyLe _).symm
    rw [keys_mergeQuery q1 base hnd hne, keys_mergeQuery q2 base hnd2 hne2]
    exact List.Perm.append_left _ ((hp.map Prod.fst).filter _)
  have hlook : ∀ x, (lookupKey (mergeQuery base q1) x).getD [] =
      (lookupKey (mergeQuery base q2) x).getD [] := by
    intro x
    rw [lookup_mergeQuery q1 base x hnd, lookup_mergeQuery q2 base x hnd2,
      lookup_perm_of_nodup hp hnd x]
  unfold Values.Encode
  rw [hkeys]
  have hfun : (fun k => ((lookupKey (mergeQuery base q1) k).getD []).map
        (fun x => queryEscape k ++ "=" ++ queryEscape x)) =
      (fun k => ((lookupKey (mergeQuery base q2) k).getD []).map
        (fun x => queryEscape k ++ "=" ++ queryEscape x)) := by
    funext k
    rw [hlook k]
  rw [hfun]

/-- C4: the redirect query merge starts from the base URI's parameters and
appends every stored key/value (multi-value keys append, never replace);
the re-encoding sorts parameter keys lexicographically; and the encoded
result — hence the whole response — is independent of the insertion order
of the merged pairs.  The final conjunct is the spec's example: merging
`a=1` into a base whose query is `b=2` yields `?a=1&b=2`. -/
theorem redirect_query_merge (rr : RedirectResponse) (w : Writer) (q1 q2 : Values)
    (hp : q1.Perm q2) (hnd : (q1.map Prod.fst).Nodup)
    (hne : ∀ kv ∈ q1, kv.2 ≠ []) :
    (∀ (base : Values) (x : String),
        (lookupKey (mergeQuery base q1) x).getD [] =
          (lookupKey base x).getD [] ++ (lookupKey q1 x).getD []) ∧
    (∀ v : Values, List.Sorted keyLe v.sortedKeys) ∧
    RedirectResponse.ResponseTo { rr with Query := q1 } w =
      RedirectResponse.ResponseTo { rr with Query := q2 } w ∧
    Header.Get (RedirectResponse.ResponseTo
        ⟨[], "https://example.com/cb?b=2", [("a", ["1"])], []⟩ Writer.empty).1.header
      "Location" = "https://example.com/cb?a=1&b=2" := by
  refine ⟨fun base x => lookup_mergeQuery q1 base x hnd, sortedKeys_sorted, ?_, by decide⟩
  by_cases hempty : rr.RedirectURI = ""
  · simp [RedirectResponse.ResponseTo, hempty]
  · cases hparse : url.Parse rr.RedirectURI with
    | error e => simp [RedirectResponse.ResponseTo, hempty, hparse]
    | ok u =>
        by_cases habs : u.Scheme = "" ∨ u.Host = ""
        · have hb : (decide (u.Scheme = "") || decide (u.Host = "")) = true := by
            rcases habs with h | h <;> simp [h]
          simp [RedirectResponse.ResponseTo, hempty, hparse, hb]
        · have hb : (decide (u.Scheme = "") || decide (u.Host = "")) = false := by
            rcases not_or.1 habs with ⟨h1, h2⟩
            simp [h1, h2]
          simp [RedirectResponse.ResponseTo, hempty, hparse, hb,
            encode_mergeQuery_perm u.Query hp hnd hne]

/-- Witness for C4: two insertion orders of the same two stored parameters
produce identical responses on a concrete base URI. -/
theorem redirect_query_merge_witness :
    RedirectResponse.ResponseTo
        ⟨[], "https://example.com/cb?b=2", [("a", ["1"]), ("c", ["3"])], []⟩ Writer.empty =
      RedirectResponse.ResponseTo
        ⟨[], "https://example.com/cb?b=2", [("c", ["3"]), ("a", ["1"])], []⟩ Writer.empty :=
  (redirect_query_merge
    ⟨[], "https://example.com/cb?b=2", [("a", ["1"]), ("c", ["3"])], []⟩ Writer.empty
    [("a", ["1"]), ("c", ["3"])] [("c", ["3"]), ("a", ["1"])]
    (List.Perm.swap ("c", ["3"]) ("a", ["1"]) [])
    (by decide) (by decide)).2.2.1

end Oasis
